import Mathlib

/-!
# Verification of the Portfolio-Analyzer core

Shallow embedding of the core algorithms of the Portfolio-Analyzer
repository: trade ingestion (`utils/data_loader.py`), retroactive
stock-split adjustment (`models/splits.py`), holdings aggregation
(`models/portfolio.py`), the XIRR solver (`utils/xirr_calculator.py`),
and currency conversion with USD pivot (`models/currency.py`).

Modelling conventions:
* Python floats are modelled as exact rationals (ℚ); the special values
  NaN/Inf are modelled explicitly (`FloatVal`) where the code tests for
  them.
* Timestamps are modelled as integer day numbers.  The split code
  compares `normalize()`d (day-granularity) dates, so a single integer
  field `date` stands for the normalized Date/Time of a row.
* External calls (yfinance fetches, `scipy.optimize.newton`) are
  modelled as explicit function parameters: the core code under
  verification only observes their returned values.
-/

namespace PortfolioAnalyzer

/-! ## Data model: trade rows and records (utils/data_loader.py) -/

/-- A raw CSV row after pandas coercion: `pd.to_datetime(..., errors='coerce')`
and `pd.to_numeric(..., errors='coerce')` turn unparseable fields into NaN,
modelled as `none`; a missing `Symbol` is likewise `none`. -/
structure RawRow where
  symbol : Option String
  timestamp : Option Int
  quantity : Option ℚ
  price : Option ℚ
  currency : String
  deriving Repr, DecidableEq

/-- A normalized trade record.  `adjusted_quantity`/`adjusted_price` are
initialized from the raw fields at ingestion (data_loader.py lines 42-43)
and rewritten by the split adjuster; `split_adjusted` is the flag added in
splits.py. -/
structure TradeRecord where
  symbol : String
  date : Int
  quantity : ℚ
  price : ℚ
  currency : String
  adjusted_quantity : ℚ
  adjusted_price : ℚ
  split_adjusted : Bool
  deriving Repr, DecidableEq

/-- One row of `load_all_trades`' cleaning step: a row survives
`dropna(subset=['Date/Time', 'Quantity', 'T. Price', 'Symbol'])` exactly
when all four fields parsed; the surviving rows get
`adjusted_quantity = Quantity` and `adjusted_price = T. Price`. -/
def parseRow (r : RawRow) : Option TradeRecord :=
  match r.symbol, r.timestamp, r.quantity, r.price with
  | some s, some d, some q, some p =>
      some { symbol := s, date := d, quantity := q, price := p,
             currency := r.currency,
             adjusted_quantity := q, adjusted_price := p,
             split_adjusted := false }
  | _, _, _, _ => none

/-- The error the specification's ledger contract names for the case of zero
valid rows.  (The implementation never actually raises it; the `Except`
result type below records where a raise could propagate.) -/
inductive DataError
  | noValidRows
  deriving Repr, DecidableEq

/-- `sort_values(by="Date/Time")` on the combined frame. -/
def sortByDate (ts : List TradeRecord) : List TradeRecord :=
  ts.mergeSort (fun a b => a.date ≤ b.date)

/-- `DataLoader.load_all_trades`: per file, coerce and drop invalid rows;
concatenate all surviving rows; initialize the adjusted fields from the raw
ones; sort by timestamp.  All per-file exceptions are caught inside the
loop, and the zero-valid-rows case returns an empty frame, so the function
always returns normally. -/
def load_all_trades (files : List (List RawRow)) : Except DataError (List TradeRecord) :=
  .ok (sortByDate ((files.map (fun f => f.filterMap parseRow)).flatten))

/-! ## Split adjustment (models/splits.py) -/

/-- One stock split event as yielded by `splits.items()`: an effective date
(already normalized to day granularity) and a forward split factor. -/
structure SplitEvent where
  effective_date : Int
  ratio : ℚ
  deriving Repr, DecidableEq

/-- The body of the per-event loop of `_apply_splits_to_trades` restricted
to one trade: trades with `trade_date.normalize() < split_date.normalize()`
get `adjusted_quantity *= ratio`, `adjusted_price /= ratio` and the
`split_adjusted` flag set; other trades are untouched. -/
def applySplitToTrade (split_date : Int) (split_ratio : ℚ) (t : TradeRecord) : TradeRecord :=
  if t.date < split_date then
    { t with adjusted_quantity := t.adjusted_quantity * split_ratio,
             adjusted_price := t.adjusted_price / split_ratio,
             split_adjusted := true }
  else t

/-- Lines 78-79 of splits.py: `_apply_splits_to_trades` re-seeds the
adjusted columns from the raw columns before applying any event. -/
def resetAdjusted (t : TradeRecord) : TradeRecord :=
  { t with adjusted_quantity := t.quantity, adjusted_price := t.price }

/-- `SplitAdjuster._apply_splits_to_trades` viewed per trade: re-seed the
adjusted fields, then fold the events over the trade in list order, each
event reading the current adjusted values. -/
def applySplitsToTrade (splits : List SplitEvent) (t : TradeRecord) : TradeRecord :=
  splits.foldl (fun t s => applySplitToTrade s.effective_date s.ratio t) (resetAdjusted t)

/-- `SplitAdjuster._apply_splits_to_trades` on a symbol's trade set: on an
empty event list the trades are returned unchanged (line 74-75); otherwise
the adjusted columns are re-seeded and every event is applied to the masked
subset of the whole set. -/
def apply_splits_to_trades (trades : List TradeRecord) (splits : List SplitEvent) :
    List TradeRecord :=
  if splits.isEmpty then trades
  else
    splits.foldl (fun ts s => ts.map (applySplitToTrade s.effective_date s.ratio))
      (trades.map resetAdjusted)

/-- The compounded factor a split list applies to a trade dated `d`: the
product of the ratios of exactly those events whose effective date is
strictly later than `d`. -/
def ratioProduct (d : Int) (splits : List SplitEvent) : ℚ :=
  ((splits.filter (fun s => d < s.effective_date)).map SplitEvent.ratio).prod

/-! ## Holdings aggregation (models/portfolio.py) -/

/-- One entry of `PortfolioManager.holdings`. -/
structure Holding where
  quantity : ℚ
  avg_cost : ℚ
  current_price : ℚ
  market_value : ℚ
  unrealized_pnl : ℚ
  currency : String
  splits_applied : Bool
  deriving Repr, DecidableEq

/-- `buy_quantity`: sum of the positive adjusted quantities. -/
def buy_quantity (trades : List TradeRecord) : ℚ :=
  ((trades.filter (fun t => 0 < t.adjusted_quantity)).map (·.adjusted_quantity)).sum

/-- `sell_quantity`: absolute value of the sum of the negative adjusted
quantities. -/
def sell_quantity (trades : List TradeRecord) : ℚ :=
  |((trades.filter (fun t => t.adjusted_quantity < 0)).map (·.adjusted_quantity)).sum|

/-- `net_quantity = buy_quantity - sell_quantity`. -/
def net_quantity (trades : List TradeRecord) : ℚ :=
  buy_quantity trades - sell_quantity trades

/-- `total_cost`: sum of `adjusted_quantity * adjusted_price` over the buy
trades. -/
def total_cost (trades : List TradeRecord) : ℚ :=
  ((trades.filter (fun t => 0 < t.adjusted_quantity)).map
    (fun t => t.adjusted_quantity * t.adjusted_price)).sum

/-- `avg_cost = total_cost / buy_quantity if buy_quantity > 0 else 0`
(portfolio.py line 97). -/
def avg_cost (trades : List TradeRecord) : ℚ :=
  if 0 < buy_quantity trades then total_cost trades / buy_quantity trades else 0

/-- The per-symbol body of `_calculate_holdings_with_batching`: a Holding
is stored exactly when `net_quantity > 0`, with the cost basis taken from
buy-side adjusted values only; `latest_price` is the gateway's quote. -/
def calc_holding (trades : List TradeRecord) (latest_price : ℚ) : Option Holding :=
  if 0 < net_quantity trades then
    some { quantity := net_quantity trades,
           avg_cost := avg_cost trades,
           current_price := latest_price,
           market_value := net_quantity trades * latest_price,
           unrealized_pnl := (latest_price - avg_cost trades) * net_quantity trades,
           currency := ((trades.head?).map (·.currency)).getD "",
           splits_applied := trades.any (·.split_adjusted) }
  else none

/-! ## XIRR solver (utils/xirr_calculator.py) -/

/-- A Python float as observed by the XIRR code: a finite rational or one
of the special values the code tests for with `np.isnan` / `np.isinf`. -/
inductive FloatVal
  | fin (q : ℚ)
  | nan
  | inf
  | ninf
  deriving Repr, DecidableEq

/-- `np.isnan`. -/
def FloatVal.isNaN : FloatVal → Bool
  | .nan => true
  | _ => false

/-- `np.isinf`. -/
def FloatVal.isInf : FloatVal → Bool
  | .inf => true
  | .ninf => true
  | _ => false

/-- The rational value of a finite float (the fallback arithmetic only
reaches this after the NaN/Inf guard has passed). -/
def FloatVal.toRat : FloatVal → ℚ
  | .fin q => q
  | _ => 0

/-- `x - 1` on floats, as used for `simple_return = (...) ** (1/years) - 1`. -/
def FloatVal.sub1 : FloatVal → FloatVal
  | .fin q => .fin (q - 1)
  | v => v

/-- Lines 72-73 of xirr_calculator.py: a Newton attempt is accepted when it
returned (did not raise), is neither NaN nor Inf, and exceeds -0.99;
otherwise the loop continues with the next guess. -/
def acceptResult : Option FloatVal → Option ℚ
  | some (.fin r) => if -99/100 < r then some r else none
  | _ => none

/-- Line 58 of xirr_calculator.py: `initial_guesses = [0.1, 0.05, 0.2, -0.1, 0.01]`. -/
def initial_guesses : List ℚ := [1/10, 1/20, 1/5, -1/10, 1/100]

/-- `calculate_xirr`.  `newtonFn` models `scipy.optimize.newton` applied to
this problem's `xnpv`/`xnpv_derivative` at a given initial guess (`none` =
the call raised); `powFn` models Python float `**` on the fallback's base
and exponent (`none` = the power raised, e.g. OverflowError).  The outer
`try/except` returns `None` for every precondition failure, so the
embedding is a total function into `Option`. -/
def calculate_xirr (newtonFn : ℚ → Option FloatVal) (powFn : ℚ → ℚ → Option FloatVal)
    (cashflows : List FloatVal) (dates : List Int) : Option FloatVal :=
  if cashflows.length ≠ dates.length then none
  else if cashflows.length < 2 then none
  else if cashflows.all (· = .fin 0) || cashflows.any (·.isNaN) || cashflows.any (·.isInf)
    then none
  else
    let first_date : Int := (dates.min?).getD 0
    let days : List ℚ := dates.map (fun d => ((d - first_date : Int) : ℚ))
    match initial_guesses.findSome? (fun g => acceptResult (newtonFn g)) with
    | some r => some (.fin r)
    | none =>
        let values := cashflows.map FloatVal.toRat
        let total_invested : ℚ := -(values.filter (fun c => c < 0)).sum
        let final_value : ℚ := (values.getLast?).getD 0
        if 0 < total_invested ∧ 0 < final_value then
          let years : ℚ := ((days.getLast?).getD 0) / 365
          if 0 < years then
            match powFn (final_value / total_invested) (1 / years) with
            | some v => if (v.sub1).isNaN then none else some v.sub1
            | none => none
          else none
        else none

/-- Line 81 of xirr_calculator.py: `total_invested = -np.sum(cashflows[cashflows < 0])`
(all cashflows are finite once the NaN/Inf guard has passed). -/
def fallbackTotalInvested (cashflows : List FloatVal) : ℚ :=
  -(((cashflows.map FloatVal.toRat).filter (fun c => c < 0)).sum)

/-- Line 82 of xirr_calculator.py: `final_value = cashflows[-1]`. -/
def fallbackFinalValue (cashflows : List FloatVal) : ℚ :=
  ((cashflows.map FloatVal.toRat).getLast?).getD 0

/-- Line 85 of xirr_calculator.py: `years = days[-1] / 365.0`, where
`days[-1] = (dates[-1] - min(dates)).days` on a nonempty date list. -/
def fallbackYears (dates : List Int) : ℚ :=
  (((dates.getLast?).getD 0 - (dates.min?).getD 0 : Int) : ℚ) / 365

/-! ## Currency conversion (models/currency.py) -/

/-- The outcome of one yfinance close-price fetch, per pair ticker string
(e.g. "SGDUSD=X"): `none` models a raised exception or empty history,
`some r` a fetched closing rate. -/
structure RateSource where
  fetch : String → Option ℚ

/-- The inverse-pair half of `CurrencyConverter._get_rate` (lines 35-48):
fetch the reversed ticker; a truthy rate is inverted and returned, a falsy
rate falls off the end of the function, an exception returns `None`. -/
def get_rate_inverse (src : RateSource) (from_curr to_curr : String) : Option ℚ :=
  match src.fetch (to_curr ++ from_curr ++ "=X") with
  | some r => if r ≠ 0 then some (1 / r) else none
  | none => none

/-- `CurrencyConverter._get_rate`: same currency gives 1.0; otherwise try
the direct pair ticker (a falsy 0.0 close or an exception falls through to
the inverse pair), then the inverse pair. -/
def get_rate (src : RateSource) (from_curr to_curr : String) : Option ℚ :=
  if from_curr = to_curr then some 1
  else
    match src.fetch (from_curr ++ to_curr ++ "=X") with
    | some r => if r ≠ 0 then some r else get_rate_inverse src from_curr to_curr
    | none => get_rate_inverse src from_curr to_curr

/-- `CurrencyConverter.convert`: same currency returns the amount
unchanged; with a rate, returns `amount * rate` (a falsy rate would return
`None`); with no rate and both endpoints different from USD, pivots through
USD, where the Python truthiness test `if usd_amount:` treats a zero
intermediate amount like a failed leg. -/
def convert (src : RateSource) (amount : ℚ) (from_curr to_curr : String) : Option ℚ :=
  if from_curr = to_curr then some amount
  else
    match get_rate src from_curr to_curr with
    | none =>
        if from_curr ≠ "USD" ∧ to_curr ≠ "USD" then
          match convert src amount from_curr "USD" with
          | some u => if u ≠ 0 then convert src u "USD" to_curr else none
          | none => none
        else none
    | some r => if r ≠ 0 then some (amount * r) else none
termination_by (if from_curr ≠ "USD" ∧ to_curr ≠ "USD" then 1 else 0)
decreasing_by
  all_goals simp_all

/-- A concrete rate table: only the SGD→USD and USD→EUR closes are
available; in particular there is no direct or inverse SGD↔EUR rate. -/
def demoRates : RateSource :=
  ⟨fun pair => if pair = "SGDUSD=X" then some 2
    else if pair = "USDEUR=X" then some 3 else none⟩

/-! ## Structural lemmas about the split fold -/

/-- Folding a split list over one trade multiplies the current adjusted
quantity by the product of the ratios of the events dated strictly after
the trade, divides the adjusted price by the same product, and sets the
flag when at least one event applied. -/
theorem foldl_applySplit_closed (splits : List SplitEvent) (t : TradeRecord) :
    splits.foldl (fun t s => applySplitToTrade s.effective_date s.ratio t) t =
      { t with
        adjusted_quantity := t.adjusted_quantity * ratioProduct t.date splits,
        adjusted_price := t.adjusted_price / ratioProduct t.date splits,
        split_adjusted :=
          (t.split_adjusted || splits.any (fun s => decide (t.date < s.effective_date))) } := by
  induction splits generalizing t with
  | nil => simp [ratioProduct]
  | cons s ss ih =>
    rw [List.foldl_cons]
    by_cases h : t.date < s.effective_date
    · rw [applySplitToTrade, if_pos h, ih]
      simp [ratioProduct, List.filter_cons, h, mul_assoc, div_div]
    · rw [applySplitToTrade, if_neg h, ih]
      simp [ratioProduct, List.filter_cons, h]

/-- Closed form of the per-trade split adjustment. -/
theorem applySplitsToTrade_eq (splits : List SplitEvent) (t : TradeRecord) :
    applySplitsToTrade splits t =
      { t with
        adjusted_quantity := t.quantity * ratioProduct t.date splits,
        adjusted_price := t.price / ratioProduct t.date splits,
        split_adjusted :=
          (t.split_adjusted || splits.any (fun s => decide (t.date < s.effective_date))) } := by
  rw [applySplitsToTrade, foldl_applySplit_closed]
  rfl

/-- The compounded ratio of a list of nonzero-ratio events is nonzero. -/
theorem ratioProduct_ne_zero (d : Int) (splits : List SplitEvent)
    (h : ∀ s ∈ splits, s.ratio ≠ 0) : ratioProduct d splits ≠ 0 := by
  unfold ratioProduct
  apply List.prod_ne_zero
  intro hmem
  rw [List.mem_map] at hmem
  obtain ⟨s, hs, hval⟩ := hmem
  exact h s (List.mem_of_mem_filter hs) hval

/-- The split loop (events outer, trades inner) equals the per-trade fold
mapped over the trades: each event acts on each trade independently. -/
theorem foldl_map_comm {α β : Type} (g : β → α → α) (splits : List β) (init : List α) :
    splits.foldl (fun ts s => ts.map (g s)) init =
      init.map (fun t => splits.foldl (fun t s => g s t) t) := by
  induction splits generalizing init with
  | nil => simp
  | cons s ss ih =>
    rw [List.foldl_cons, ih, List.map_map]
    rfl

/-- On a nonempty event list, `_apply_splits_to_trades` is the per-trade
adjustment mapped over the trade set. -/
theorem apply_splits_to_trades_eq_map (trades : List TradeRecord) (splits : List SplitEvent)
    (h : splits ≠ []) :
    apply_splits_to_trades trades splits = trades.map (applySplitsToTrade splits) := by
  rw [apply_splits_to_trades, if_neg (by simpa using h), foldl_map_comm, List.map_map]
  rfl

/-! ## Claim C1: split value preservation -/

/-- C1: every trade record satisfies `adjusted_quantity * adjusted_price =
quantity * price` immediately after ingestion (both via `parseRow` and via
the adjuster's re-seeding), and the equality is preserved by the
application of any sequence of split events with nonzero ratio. -/
theorem split_value_preservation (t : TradeRecord) (splits : List SplitEvent)
    (hratio : ∀ s ∈ splits, s.ratio ≠ 0) :
    (∀ (r : RawRow) (tr : TradeRecord), parseRow r = some tr →
        tr.adjusted_quantity * tr.adjusted_price = tr.quantity * tr.price) ∧
    (resetAdjusted t).adjusted_quantity * (resetAdjusted t).adjusted_price
        = t.quantity * t.price ∧
    (applySplitsToTrade splits t).adjusted_quantity *
        (applySplitsToTrade splits t).adjusted_price = t.quantity * t.price := by
  refine ⟨?_, rfl, ?_⟩
  · intro r tr h
    unfold parseRow at h
    split at h
    · cases h
      rfl
    · cases h
  · rw [applySplitsToTrade_eq]
    have hP := ratioProduct_ne_zero t.date splits hratio
    show t.quantity * ratioProduct t.date splits * (t.price / ratioProduct t.date splits)
        = t.quantity * t.price
    field_simp
    ring

/-- Witness for C1 at a concrete trade and split list. -/
theorem split_value_preservation_witness :
    (applySplitsToTrade [⟨5, 2⟩] ⟨"AAPL", 0, 100, 40, "USD", 100, 40, false⟩).adjusted_quantity *
      (applySplitsToTrade [⟨5, 2⟩] ⟨"AAPL", 0, 100, 40, "USD", 100, 40, false⟩).adjusted_price
      = 100 * 40 :=
  (split_value_preservation ⟨"AAPL", 0, 100, 40, "USD", 100, 40, false⟩ [⟨5, 2⟩]
    (by norm_num)).2.2

/-! ## Claim C2 (corrected): no trading-window restriction in the adjuster -/

/-- C2 counterexample: a split dated after the symbol's only (hence last)
trade — outside the symbol's trading window — is applied anyway by
`_apply_splits_to_trades` and changes the trade's adjusted fields. -/
theorem split_window_counterexample :
    (apply_splits_to_trades [⟨"AAPL", 10, 100, 40, "USD", 100, 40, false⟩]
        [⟨20, 2⟩]).map TradeRecord.adjusted_quantity = [200] ∧
    (200 : ℚ) ≠ 100 := by
  constructor
  · norm_num [apply_splits_to_trades, applySplitToTrade, resetAdjusted]
  · norm_num

/-- C2 (amended): the adjuster applies every fetched split event to every
trade dated strictly before the event, with no restriction to the symbol's
trading window: each trade's adjusted fields are determined by the events
dated after that trade alone.  Events dated on or before all trade dates
produce no change (vacuously); events dated after the last trade date are
applied to every trade. -/
theorem split_window_behaviour (trades : List TradeRecord) (splits : List SplitEvent)
    (hne : splits ≠ []) :
    apply_splits_to_trades trades splits = trades.map (applySplitsToTrade splits) ∧
    (∀ t : TradeRecord,
      (applySplitsToTrade splits t).adjusted_quantity
          = t.quantity * ratioProduct t.date splits ∧
      (applySplitsToTrade splits t).adjusted_price
          = t.price / ratioProduct t.date splits) ∧
    (∀ t : TradeRecord, (∀ s ∈ splits, s.effective_date ≤ t.date) →
      (applySplitsToTrade splits t).adjusted_quantity = t.quantity ∧
      (applySplitsToTrade splits t).adjusted_price = t.price) := by
  refine ⟨apply_splits_to_trades_eq_map trades splits hne, ?_, ?_⟩
  · intro t
    rw [applySplitsToTrade_eq]
    exact ⟨rfl, rfl⟩
  · intro t ht
    have hfilter : splits.filter (fun s => decide (t.date < s.effective_date)) = [] := by
      rw [List.filter_eq_nil_iff]
      intro s hs
      simpa using not_lt.mpr (ht s hs)
    rw [applySplitsToTrade_eq]
    constructor
    · show t.quantity * ratioProduct t.date splits = t.quantity
      rw [ratioProduct, hfilter]
      simp
    · show t.price / ratioProduct t.date splits = t.price
      rw [ratioProduct, hfilter]
      simp

/-- Witness for C2 at a concrete trade set and split list. -/
theorem split_window_behaviour_witness :
    (applySplitsToTrade [⟨-5, 2⟩] ⟨"AAPL", 10, 100, 40, "USD", 100, 40, false⟩).adjusted_quantity
        = (100 : ℚ) ∧
    (applySplitsToTrade [⟨-5, 2⟩] ⟨"AAPL", 10, 100, 40, "USD", 100, 40, false⟩).adjusted_price
        = (40 : ℚ) :=
  (split_window_behaviour [⟨"AAPL", 10, 100, 40, "USD", 100, 40, false⟩] [⟨-5, 2⟩]
      (by simp)).2.2
    ⟨"AAPL", 10, 100, 40, "USD", 100, 40, false⟩ (by simp)

/-! ## Claim C3: order independence of split compounding -/

/-- C3: the adjusted fields produced by the split adjuster are invariant
under permutation of the event list (each event scales the current
adjusted values, and the scalings commute); in particular a 100-share
trade at price 40 dated before two 2-for-1 splits ends at
`adjusted_quantity = 400` and `adjusted_price = 10`. -/
theorem split_order_independence (t : TradeRecord) (splits₁ splits₂ : List SplitEvent)
    (hperm : splits₁.Perm splits₂) :
    applySplitsToTrade splits₁ t = applySplitsToTrade splits₂ t ∧
    (applySplitsToTrade [⟨5, 2⟩, ⟨10, 2⟩]
        ⟨"AAPL", 0, 100, 40, "USD", 100, 40, false⟩).adjusted_quantity = 400 ∧
    (applySplitsToTrade [⟨5, 2⟩, ⟨10, 2⟩]
        ⟨"AAPL", 0, 100, 40, "USD", 100, 40, false⟩).adjusted_price = 10 := by
  refine ⟨?_, by norm_num [applySplitsToTrade, applySplitToTrade, resetAdjusted],
    by norm_num [applySplitsToTrade, applySplitToTrade, resetAdjusted]⟩
  rw [applySplitsToTrade_eq, applySplitsToTrade_eq]
  have hfilter := hperm.filter (fun s => decide (t.date < s.effective_date))
  have hprod : ratioProduct t.date splits₁ = ratioProduct t.date splits₂ :=
    (hfilter.map SplitEvent.ratio).prod_eq
  have hany : splits₁.any (fun s => decide (t.date < s.effective_date))
      = splits₂.any (fun s => decide (t.date < s.effective_date)) := by
    rw [List.any_eq, List.any_eq, decide_eq_decide]
    constructor
    · rintro ⟨x, hx, hp⟩
      exact ⟨x, hperm.mem_iff.mp hx, hp⟩
    · rintro ⟨x, hx, hp⟩
      exact ⟨x, hperm.mem_iff.mpr hx, hp⟩
  rw [hprod, hany]

/-- Witness for C3: swapping two concrete split events leaves the adjusted
trade unchanged. -/
theorem split_order_independence_witness :
    applySplitsToTrade [⟨5, 2⟩, ⟨10, 2⟩] ⟨"AAPL", 0, 100, 40, "USD", 100, 40, false⟩
      = applySplitsToTrade [⟨10, 2⟩, ⟨5, 2⟩] ⟨"AAPL", 0, 100, 40, "USD", 100, 40, false⟩ :=
  (split_order_independence ⟨"AAPL", 0, 100, 40, "USD", 100, 40, false⟩
      [⟨5, 2⟩, ⟨10, 2⟩] [⟨10, 2⟩, ⟨5, 2⟩] (List.Perm.swap _ _ _)).1

/-! ## Claim C4: holding inclusion -/

/-- C4: a Holding is produced for a symbol's trade set exactly when the
net quantity (buy-side sum minus the absolute sell-side sum of adjusted
quantities) is strictly positive; buying 10 and selling 10 of a symbol
yields no Holding. -/
theorem holding_inclusion (trades : List TradeRecord) (latest_price : ℚ) :
    ((calc_holding trades latest_price).isSome ↔ 0 < net_quantity trades) ∧
    calc_holding [⟨"A", 0, 10, 100, "USD", 10, 100, false⟩,
        ⟨"A", 1, -10, 100, "USD", -10, 100, false⟩] 50 = none := by
  constructor
  · unfold calc_holding
    split <;> simp_all
  · norm_num [calc_holding, net_quantity, buy_quantity, sell_quantity]

/-! ## Claim C5: average cost basis -/

/-- C5: whenever a Holding exists, its `avg_cost` is the buy-side adjusted
cashflow divided by the buy-side adjusted quantity; appending sell trades
changes neither; buying 10@100 then 10@200 gives `avg_cost = 150` and
`net_quantity = 20`. -/
theorem average_cost_basis :
    (∀ (trades : List TradeRecord) (latest_price : ℚ), 0 < net_quantity trades →
      ∃ h : Holding, calc_holding trades latest_price = some h ∧
        h.avg_cost = total_cost trades / buy_quantity trades) ∧
    (∀ trades sells : List TradeRecord, (∀ t ∈ sells, t.adjusted_quantity < 0) →
      avg_cost (trades ++ sells) = avg_cost trades) ∧
    (∃ h : Holding,
      calc_holding [⟨"A", 0, 10, 100, "USD", 10, 100, false⟩,
          ⟨"A", 1, 10, 200, "USD", 10, 200, false⟩] 50 = some h ∧
      h.avg_cost = 150 ∧ h.quantity = 20) := by
  refine ⟨?_, ?_, ?_⟩
  · intro trades lp hnet
    have hsell : 0 ≤ sell_quantity trades := abs_nonneg _
    have hbuy : 0 < buy_quantity trades := by
      have h := hnet
      unfold net_quantity at h
      linarith
    refine ⟨_, by rw [calc_holding, if_pos hnet], ?_⟩
    show avg_cost trades = total_cost trades / buy_quantity trades
    rw [avg_cost, if_pos hbuy]
  · intro trades sells hs
    have hfilter : ∀ g : TradeRecord → ℚ,
        ((trades ++ sells).filter (fun t => 0 < t.adjusted_quantity)).map g
          = (trades.filter (fun t => 0 < t.adjusted_quantity)).map g := by
      intro g
      have hnil : sells.filter (fun t => 0 < t.adjusted_quantity) = [] := by
        rw [List.filter_eq_nil_iff]
        intro t ht
        simpa using not_lt.mpr (le_of_lt (hs t ht))
      rw [List.filter_append, hnil, List.append_nil]
    have hb : buy_quantity (trades ++ sells) = buy_quantity trades := by
      unfold buy_quantity
      rw [hfilter]
    have hc : total_cost (trades ++ sells) = total_cost trades := by
      unfold total_cost
      rw [hfilter]
    unfold avg_cost
    rw [hb, hc]
  · refine ⟨⟨20, 150, 50, 1000, -2000, "USD", false⟩, ?_, rfl, rfl⟩
    norm_num [calc_holding, net_quantity, buy_quantity, sell_quantity, total_cost, avg_cost]

/-- Witness for C5: a concrete sell trade appended to a concrete buy trade
leaves the average cost untouched. -/
theorem average_cost_basis_witness :
    avg_cost ([⟨"A", 0, 10, 100, "USD", 10, 100, false⟩]
        ++ [⟨"A", 1, -5, 80, "USD", -5, 80, false⟩])
      = avg_cost [⟨"A", 0, 10, 100, "USD", 10, 100, false⟩] :=
  average_cost_basis.2.1 _ _ (by norm_num)

/-! ## Claim C6 (corrected): ledger error behaviour -/

/-- The number of rows surviving `filterMap` is the number of rows on
which the parse succeeds. -/
theorem length_filterMap_eq_length_filter {α β : Type} (f : α → Option β) (l : List α) :
    (l.filterMap f).length = (l.filter (fun a => (f a).isSome)).length := by
  induction l with
  | nil => rfl
  | cons a tl ih =>
    rw [List.filterMap_cons, List.filter_cons]
    cases h : f a <;> simp [h, ih]

/-- C6 counterexample: on a source batch whose only row fails to parse
(zero valid rows remain across all sources), `load_all_trades` does not
fail with `DataError`: it returns an empty trade set normally. -/
theorem ledger_dataerror_counterexample :
    load_all_trades [[⟨some "AAPL", some 0, some 10, none, "USD"⟩]] = .ok [] ∧
    load_all_trades [[⟨some "AAPL", some 0, some 10, none, "USD"⟩]] ≠ .error .noValidRows := by
  have h1 : load_all_trades [[⟨some "AAPL", some 0, some 10, none, "USD"⟩]] = .ok [] := by
    simp [load_all_trades, parseRow, sortByDate]
  refine ⟨h1, ?_⟩
  rw [h1]
  exact fun h => Except.noConfusion h

/-- C6 (amended): the loader drops exactly the rows failing to parse
timestamp, quantity or price or missing the symbol, and always returns
normally; with zero valid rows across all sources it returns an empty
trade set rather than failing with `DataError`; a batch of one malformed
row and nine valid rows yields exactly nine records. -/
theorem ledger_resilience (files : List (List RawRow)) :
    (∃ ts : List TradeRecord, load_all_trades files = .ok ts ∧
      ts.length = ((files.map (fun f =>
        f.filter (fun r => (parseRow r).isSome))).flatten).length) ∧
    ((∀ f ∈ files, ∀ r ∈ f, parseRow r = none) → load_all_trades files = .ok []) ∧
    (∃ ts : List TradeRecord,
      load_all_trades [⟨some "AAPL", some 0, some 10, none, "USD"⟩ ::
        (List.range 9).map (fun i => ⟨some "AAPL", some (i : Int), some 10, some 5, "USD"⟩)]
        = .ok ts ∧ ts.length = 9) := by
  refine ⟨?_, ?_, ?_⟩
  · refine ⟨_, rfl, ?_⟩
    rw [sortByDate, List.length_mergeSort]
    rw [List.length_flatten, List.length_flatten, List.map_map, List.map_map]
    congr 1
    apply List.map_congr_left
    intro f _
    exact length_filterMap_eq_length_filter parseRow f
  · intro hall
    have hmap : files.map (fun f => f.filterMap parseRow)
        = files.map (fun _ => ([] : List TradeRecord)) :=
      List.map_congr_left fun f hf => List.filterMap_eq_nil_iff.mpr (hall f hf)
    rw [load_all_trades, hmap]
    have : (files.map (fun _ => ([] : List TradeRecord))).flatten = [] :=
      List.flatten_eq_nil_iff.mpr (by simp)
    rw [this]
    simp [sortByDate]
  · refine ⟨_, rfl, ?_⟩
    rw [sortByDate, List.length_mergeSort]
    rfl

/-- Witness for C6 on a concrete all-invalid source set. -/
theorem ledger_resilience_witness :
    load_all_trades [[⟨none, some 3, some 1, some 2, "SGD"⟩], []] = .ok [] :=
  (ledger_resilience [[⟨none, some 3, some 1, some 2, "SGD"⟩], []]).2.1 (by decide)

/-! ## Claims C7 and C8: the XIRR solver -/

/-- C7: whenever the cashflow and date lists differ in length, or fewer
than two points are given, or all cashflows are zero, or any cashflow is
NaN or Inf, `calculate_xirr` returns unavailable — regardless of what the
Newton iteration or the float power would do (the embedding is a total
function, mirroring the outer `try/except` that converts every raise into
`None`). -/
theorem xirr_preconditions (newtonFn : ℚ → Option FloatVal)
    (powFn : ℚ → ℚ → Option FloatVal) (cashflows : List FloatVal) (dates : List Int)
    (h : cashflows.length ≠ dates.length ∨ cashflows.length < 2 ∨
      (∀ c ∈ cashflows, c = FloatVal.fin 0) ∨
      ∃ c ∈ cashflows, c.isNaN = true ∨ c.isInf = true) :
    calculate_xirr newtonFn powFn cashflows dates = none := by
  unfold calculate_xirr
  by_cases h1 : cashflows.length ≠ dates.length
  · simp [h1]
  by_cases h2 : cashflows.length < 2
  · simp [h1, h2]
  have h3 : (cashflows.all (fun c => c = FloatVal.fin 0)
      || cashflows.any (fun c => c.isNaN) || cashflows.any (fun c => c.isInf)) = true := by
    rcases h with h | h | h | ⟨c, hc, hcc⟩
    · exact absurd h h1
    · exact absurd h h2
    · have hall : cashflows.all (fun c => c = FloatVal.fin 0) = true := by
        rw [List.all_eq_true]
        intro c hc
        simpa using h c hc
      simp [hall]
    · rcases hcc with hcc | hcc
      · have hany : cashflows.any (fun c => c.isNaN) = true :=
          List.any_eq_true.mpr ⟨c, hc, hcc⟩
        simp [hany]
      · have hany : cashflows.any (fun c => c.isInf) = true :=
          List.any_eq_true.mpr ⟨c, hc, hcc⟩
        simp [hany]
  simp [h1, h2, h3]

/-- Witness for C7: a single cashflow point returns unavailable. -/
theorem xirr_preconditions_witness :
    calculate_xirr (fun _ => none) (fun _ _ => none) [FloatVal.fin 5] [0] = none :=
  xirr_preconditions _ _ _ _ (Or.inr (Or.inl (by norm_num)))

/-- With the preconditions satisfied, `calculate_xirr` is the guess loop
followed by the compound-growth fallback, phrased with the fallback
quantities. -/
theorem calculate_xirr_eq (newtonFn : ℚ → Option FloatVal)
    (powFn : ℚ → ℚ → Option FloatVal) (cashflows : List FloatVal) (dates : List Int)
    (hlen : cashflows.length = dates.length) (h2 : 2 ≤ cashflows.length)
    (hdeg : (cashflows.all (fun c => c = FloatVal.fin 0)
      || cashflows.any (fun c => c.isNaN) || cashflows.any (fun c => c.isInf)) = false) :
    calculate_xirr newtonFn powFn cashflows dates =
      match initial_guesses.findSome? (fun g => acceptResult (newtonFn g)) with
      | some r => some (.fin r)
      | none =>
          if 0 < fallbackTotalInvested cashflows ∧ 0 < fallbackFinalValue cashflows then
            if 0 < fallbackYears dates then
              match powFn (fallbackFinalValue cashflows / fallbackTotalInvested cashflows)
                  (1 / fallbackYears dates) with
              | some v => if v.sub1.isNaN then none else some v.sub1
              | none => none
            else none
          else none := by
  have hne : dates ≠ [] := by
    intro hnil
    rw [hnil] at hlen
    simp only [List.length_nil] at hlen
    omega
  obtain ⟨L, hL⟩ := Option.isSome_iff_exists.mp (List.getLast?_isSome.mpr hne)
  unfold calculate_xirr
  rw [if_neg (by simp [hlen]), if_neg (by omega), if_neg (by simp [hdeg])]
  cases hf : initial_guesses.findSome? (fun g => acceptResult (newtonFn g)) with
  | some r => simp [hf]
  | none =>
    simp only [hf]
    have hdays : (((dates.map (fun d => ((d - (dates.min?).getD 0 : Int) : ℚ))).getLast?).getD 0)
        = ((((dates.getLast?).getD 0 - (dates.min?).getD 0 : Int)) : ℚ) := by
      rw [List.getLast?_map, hL]
      simp
    simp only [fallbackTotalInvested, fallbackFinalValue, fallbackYears, hdays]

/-- C8: the solver tries the Newton guesses in the fixed order
0.1, 0.05, 0.2, -0.1, 0.01 and returns the first finite convergent result
exceeding -0.99; if no guess qualifies, it returns the compound-growth
estimate `(final_value / total_invested) ^ (1 / years) - 1` exactly when
`total_invested > 0`, `final_value > 0` and `years > 0` (and the float
power yields a non-NaN value), and unavailable otherwise. -/
theorem xirr_method_fallback (newtonFn : ℚ → Option FloatVal)
    (powFn : ℚ → ℚ → Option FloatVal) (cashflows : List FloatVal) (dates : List Int)
    (hlen : cashflows.length = dates.length) (h2 : 2 ≤ cashflows.length)
    (hdeg : (cashflows.all (fun c => c = FloatVal.fin 0)
      || cashflows.any (fun c => c.isNaN) || cashflows.any (fun c => c.isInf)) = false) :
    (∀ (pre : List ℚ) (g : ℚ) (post : List ℚ) (r : ℚ),
      initial_guesses = pre ++ g :: post →
      (∀ g' ∈ pre, acceptResult (newtonFn g') = none) →
      acceptResult (newtonFn g) = some r →
      calculate_xirr newtonFn powFn cashflows dates = some (.fin r)) ∧
    ((∀ g ∈ initial_guesses, acceptResult (newtonFn g) = none) →
      (∀ v : FloatVal, 0 < fallbackTotalInvested cashflows →
          0 < fallbackFinalValue cashflows → 0 < fallbackYears dates →
          powFn (fallbackFinalValue cashflows / fallbackTotalInvested cashflows)
            (1 / fallbackYears dates) = some v →
          v.sub1.isNaN = false →
          calculate_xirr newtonFn powFn cashflows dates = some v.sub1) ∧
      (¬(0 < fallbackTotalInvested cashflows ∧ 0 < fallbackFinalValue cashflows ∧
            0 < fallbackYears dates) →
          calculate_xirr newtonFn powFn cashflows dates = none)) := by
  constructor
  · intro pre g post r hsplit hpre hg
    have hfind : initial_guesses.findSome? (fun g => acceptResult (newtonFn g)) = some r := by
      rw [hsplit, List.findSome?_append, List.findSome?_eq_none_iff.mpr hpre]
      simp [List.findSome?_cons, hg]
    rw [calculate_xirr_eq newtonFn powFn cashflows dates hlen h2 hdeg, hfind]
  · intro hall
    have hfind : initial_guesses.findSome? (fun g => acceptResult (newtonFn g)) = none :=
      List.findSome?_eq_none_iff.mpr hall
    constructor
    · intro v hti hfv hy hpow hnan
      rw [calculate_xirr_eq newtonFn powFn cashflows dates hlen h2 hdeg, hfind]
      simp only [if_pos (And.intro hti hfv), if_pos hy, hpow, hnan]
      simp
    · intro hnc
      rw [calculate_xirr_eq newtonFn powFn cashflows dates hlen h2 hdeg, hfind]
      by_cases hab : 0 < fallbackTotalInvested cashflows ∧ 0 < fallbackFinalValue cashflows
      · have hy : ¬ 0 < fallbackYears dates := fun hy =>
          hnc ⟨hab.1, hab.2, hy⟩
        rw [if_pos hab, if_neg hy]
      · rw [if_neg hab]

/-- Witness for C8: with every Newton guess failing and a power function
returning 2, the fallback yields `2 - 1`. -/
theorem xirr_method_fallback_witness :
    calculate_xirr (fun _ => none) (fun _ _ => some (.fin 2))
      [.fin (-100), .fin 110] [0, 365] = some ((FloatVal.fin 2).sub1) :=
  ((xirr_method_fallback (fun _ => none) (fun _ _ => some (.fin 2))
      [.fin (-100), .fin 110] [0, 365] rfl (by norm_num) (by decide)).2
    (fun g _ => rfl)).1 (.fin 2)
    (by norm_num [fallbackTotalInvested, FloatVal.toRat])
    (by norm_num [fallbackFinalValue, FloatVal.toRat])
    (by norm_num [fallbackYears, List.min?])
    rfl rfl

/-! ## Claims C9 and C10: currency conversion -/

/-- A rate returned by the inverse-pair fallback is nonzero. -/
theorem get_rate_inverse_ne_zero {src : RateSource} {a b : String} {r : ℚ}
    (h : get_rate_inverse src a b = some r) : r ≠ 0 := by
  unfold get_rate_inverse at h
  split at h
  · split at h
    · cases h
      exact one_div_ne_zero (by assumption)
    · cases h
  · cases h

/-- Every rate `_get_rate` returns is nonzero (the Python truthiness tests
prevent a falsy rate from being returned). -/
theorem get_rate_ne_zero {src : RateSource} {a b : String} {r : ℚ}
    (h : get_rate src a b = some r) : r ≠ 0 := by
  unfold get_rate at h
  split at h
  · cases h
    norm_num
  · split at h
    · split at h
      · cases h
        assumption
      · exact get_rate_inverse_ne_zero h
    · exact get_rate_inverse_ne_zero h

/-- When `_get_rate` finds a rate for a distinct pair, `convert` multiplies
by it. -/
theorem convert_direct {src : RateSource} {amount : ℚ} {fc tc : String} {r : ℚ}
    (hne : fc ≠ tc) (h : get_rate src fc tc = some r) :
    convert src amount fc tc = some (amount * r) := by
  rw [convert.eq_def, if_neg hne]
  simp only [h]
  rw [if_pos (get_rate_ne_zero h)]

/-- On the pivot path, a from-leg that produces the falsy amount 0 makes
`convert` return unavailable. -/
theorem convert_pivot_zero_leg {src : RateSource} {amount : ℚ} {fc tc : String} {r1 : ℚ}
    (hfu : fc ≠ "USD") (htu : tc ≠ "USD") (hft : fc ≠ tc)
    (hdir : get_rate src fc tc = none)
    (h1 : get_rate src fc "USD" = some r1)
    (hzero : amount * r1 = 0) :
    convert src amount fc tc = none := by
  rw [convert.eq_def, if_neg hft]
  simp only [hdir]
  rw [if_pos ⟨hfu, htu⟩]
  have hleg : convert src amount fc "USD" = some (amount * r1) := convert_direct hfu h1
  simp only [hleg]
  rw [if_neg (by simp [hzero])]

/-- C9 counterexample: with only the SGD→USD and USD→EUR legs available,
converting the amount 0 from SGD to EUR returns unavailable, not
`some (0 * rate(SGD,USD) * rate(USD,EUR))` as the claim's universal
statement over all amounts would require. -/
theorem currency_pivot_counterexample :
    get_rate demoRates "SGD" "EUR" = none ∧
    get_rate demoRates "SGD" "USD" = some 2 ∧
    get_rate demoRates "USD" "EUR" = some 3 ∧
    convert demoRates 0 "SGD" "EUR" = none ∧
    (none : Option ℚ) ≠ some (0 * 2 * 3) := by
  refine ⟨rfl, rfl, rfl, ?_, by simp⟩
  exact convert_pivot_zero_leg (by decide) (by decide) (by decide) rfl rfl (zero_mul 2)

/-- C9 (amended): for every nonzero amount and distinct non-USD
currencies with no direct or inverse rate, when both USD legs resolve the
pivot returns `amount * rate(from,USD) * rate(USD,to)`; when the from→USD
leg is itself unavailable, the result is unavailable (`None`), not zero
and not an exception.  (The amount-zero case is excluded: the Python
truthiness test on the intermediate USD amount turns it into
unavailable — see the counterexample and claim C10.) -/
theorem currency_pivot :
    (∀ (src : RateSource) (amount : ℚ) (from_curr to_curr : String) (r1 r2 : ℚ),
      from_curr ≠ "USD" → to_curr ≠ "USD" → from_curr ≠ to_curr → amount ≠ 0 →
      get_rate src from_curr to_curr = none →
      get_rate src from_curr "USD" = some r1 →
      get_rate src "USD" to_curr = some r2 →
      convert src amount from_curr to_curr = some (amount * r1 * r2)) ∧
    (∀ (src : RateSource) (amount : ℚ) (from_curr to_curr : String),
      from_curr ≠ "USD" → to_curr ≠ "USD" → from_curr ≠ to_curr →
      get_rate src from_curr to_curr = none →
      get_rate src from_curr "USD" = none →
      convert src amount from_curr to_curr = none) := by
  constructor
  · intro src amount fc tc r1 r2 hfu htu hft hamt hdir h1 h2
    have hr1 : r1 ≠ 0 := get_rate_ne_zero h1
    rw [convert.eq_def, if_neg hft]
    simp only [hdir]
    rw [if_pos ⟨hfu, htu⟩]
    have hleg1 : convert src amount fc "USD" = some (amount * r1) := convert_direct hfu h1
    simp only [hleg1]
    rw [if_pos (mul_ne_zero hamt hr1)]
    exact convert_direct (fun h => htu h.symm) h2
  · intro src amount fc tc hfu htu hft hdir h1
    rw [convert.eq_def, if_neg hft]
    simp only [hdir]
    rw [if_pos ⟨hfu, htu⟩]
    have hleg1 : convert src amount fc "USD" = none := by
      rw [convert.eq_def, if_neg hfu]
      simp only [h1]
      simp
    simp only [hleg1]

/-- Witness for C9 on the concrete rate table. -/
theorem currency_pivot_witness :
    convert demoRates 100 "SGD" "EUR" = some (100 * 2 * 3) :=
  currency_pivot.1 demoRates 100 "SGD" "EUR" 2 3 (by decide) (by decide) (by decide)
    (by norm_num) rfl rfl rfl

/-- C10: converting an amount of exactly 0 between distinct non-USD
currencies with no direct or inverse rate returns unavailable even when
both USD pivot legs are available: the zero intermediate USD amount is
falsy and is treated like a failed leg. -/
theorem zero_amount_pivot (src : RateSource) (from_curr to_curr : String) (r1 r2 : ℚ)
    (hfu : from_curr ≠ "USD") (htu : to_curr ≠ "USD") (hft : from_curr ≠ to_curr)
    (hdir : get_rate src from_curr to_curr = none)
    (h1 : get_rate src from_curr "USD" = some r1)
    (h2 : get_rate src "USD" to_curr = some r2) :
    convert src 0 from_curr to_curr = none :=
  convert_pivot_zero_leg hfu htu hft hdir h1 (zero_mul r1)

/-- Witness for C10 on the concrete rate table. -/
theorem zero_amount_pivot_witness :
    convert demoRates 0 "SGD" "EUR" = none :=
  zero_amount_pivot demoRates "SGD" "EUR" 2 3 (by decide) (by decide) (by decide)
    rfl rfl rfl

end PortfolioAnalyzer
